import Mathlib

/-!
Verification development for the tiki-lang hierarchical specification
language (`src/tiki-lang/src/tiki`): a shallow embedding of the parser
(`parser.py`), document model (`core.py`), renderer (`renderer.py`) and the
navigator's search logic (`navigator.py`), together with theorems settling
the behavioural claims about them.

Lines of input are modelled as `List Char`; Python string operations
(`rstrip`, `strip`, `str.count`, `str.replace`, the three regexes of the
parser) are modelled by executable functions on character lists.
-/

namespace Tiki

/-- Whitespace test used to model Python's `\s` class and `str.strip`
for the ASCII inputs relevant here. -/
def isSpaceCh (c : Char) : Bool := c.isWhitespace

/-- Python `str.rstrip()`. -/
def rstripL (l : List Char) : List Char := (l.reverse.dropWhile isSpaceCh).reverse

/-- Python `str.lstrip()`. -/
def lstripL (l : List Char) : List Char := l.dropWhile isSpaceCh

/-- Python `str.strip()`. -/
def stripL (l : List Char) : List Char := lstripL (rstripL l)

/-- The backtick character (code 96), the code-fence marker. -/
def backtick : Char := Char.ofNat 96

/-- The code-fence token, three backticks (`code_block_pattern`). -/
def fenceChars : List Char := [backtick, backtick, backtick]

/-- Python `'\n'.join(lines)`. -/
def joinNL : List (List Char) → List Char
  | [] => []
  | [x] => x
  | x :: xs => x ++ '\n' :: joinNL xs

/-- The decimal digit character for `n < 10`. -/
def digitCh (n : Nat) : Char := Char.ofNat (48 + n)

/-- Fuel-driven digit emission; the fuel only serves structural
recursion and is always sufficient at call sites. -/
def natCharsAux : Nat → Nat → List Char
  | 0, _ => []
  | fuel + 1, n =>
    if n < 10 then [digitCh n]
    else natCharsAux fuel (n / 10) ++ [digitCh (n % 10)]

/-- Python `str(n)` for a nonnegative integer: decimal digit characters. -/
def natChars (n : Nat) : List Char := natCharsAux (n + 1) n

/-- The character class `[0-9a-zA-Z]` removed by `re.sub` in the level
computation of `TikiParser.parse`. -/
def isAlnumCh (c : Char) : Bool := c.isAlphanum

/-- Helper for counting maximal runs of `'*'`: the Boolean argument
records whether the previous character was an asterisk, mirroring the
index-skipping `while` loop in `TikiParser.parse` (lines 178-187). -/
def starRuns : List Char → Bool → Nat
  | [], _ => 0
  | c :: rest, inRun =>
      if c = '*' then (if inRun then 0 else 1) + starRuns rest true
      else starRuns rest false

/-- Number of maximal runs of consecutive asterisks in a string. -/
def countStarRuns (l : List Char) : Nat := starRuns l false

/-- Whether the last character of `l` is an asterisk (`f` for empty
`l`); the run-state reached by `starRuns` after scanning `l`. -/
def endStar (l : List Char) (f : Bool) : Bool :=
  l.foldl (fun _ c => decide (c = '*')) f

/-- Level computation of `TikiParser.parse` (lines 169-189): strip the
alphanumeric characters from the marker token, then count the remaining
maximal asterisk runs; tokens not starting with `'*'` give level 0. -/
def computeLevel (tok : List Char) : Nat :=
  if tok.head? = some '*' then countStarRuns (tok.filter (fun c => !(isAlnumCh c)))
  else 0

/-- Model of `concept_pattern = r'^(\*+[^\s]*)\s+(.*)'` applied with
`re.match`: succeeds iff the line starts with `'*'` and contains a
whitespace character after the leading non-space token; returns the
marker token (group 1) and the text after the first whitespace run
(group 2). -/
def matchConcept (line : List Char) : Option (List Char × List Char) :=
  match line.head? with
  | none => none
  | some c =>
    if c = '*' then
      let tok := line.takeWhile (fun ch => !(isSpaceCh ch))
      let rest := line.dropWhile (fun ch => !(isSpaceCh ch))
      if rest.isEmpty then none
      else some (tok, rest.dropWhile isSpaceCh)
    else none

/-- Fuel-driven scanner behind `findMeta`; the fuel bounds the scan
position and is always sufficient at call sites. -/
def findMetaAux : Nat → List Char → List (List Char)
  | 0, _ => []
  | _, [] => []
  | fuel + 1, c :: rest =>
    if c = '[' then
      let content := rest.takeWhile (fun ch => ch != ']')
      match rest.dropWhile (fun ch => ch != ']') with
      | [] => findMetaAux fuel rest
      | _ :: tail =>
        if content.isEmpty then findMetaAux fuel rest
        else content :: findMetaAux fuel tail
    else findMetaAux fuel rest

/-- Model of `metadata_pattern.findall` with pattern `r'\[([^\]]+)\]'`:
all non-overlapping bracketed segments with nonempty content, scanned
left to right. -/
def findMeta (l : List Char) : List (List Char) := findMetaAux l.length l

/-- Fuel-driven scanner behind `removeAll`. -/
def removeAllAux (pat : List Char) : Nat → List Char → List Char
  | 0, l => l
  | _, [] => []
  | fuel + 1, c :: rest =>
    if pat.isEmpty then c :: removeAllAux pat fuel rest
    else if pat.isPrefixOf (c :: rest) then
      removeAllAux pat fuel (List.drop pat.length (c :: rest))
    else c :: removeAllAux pat fuel rest

/-- Python `s.replace(pat, '')` for a nonempty `pat` (as always called
here): remove all non-overlapping occurrences of `pat`, scanning left to
right. -/
def removeAll (pat : List Char) (l : List Char) : List Char :=
  removeAllAux pat l.length l

/-- The metadata-stripping loop of `TikiParser.parse` (lines 160-167):
for each bracketed segment found in the raw title, remove every
occurrence of the bracketed text and strip the result. -/
def stripMetaTitle (titleMeta : List Char) : List Char :=
  (findMeta titleMeta).foldl
    (fun acc m => stripL (removeAll ('[' :: (m ++ [']'])) acc)) titleMeta

/-- A parsed concept node as built by `TikiParser._create_concept_node`,
in a flat arena representation: nodes are stored in creation (document)
order and refer to each other by index; a child is appended to its
parent's `childIdxs` at construction time, mirroring `anytree`'s
behaviour for `TikiNode(node_id, title, parent=parent)`.  The `metadata`
field keeps the raw bracketed segments in the order found (the typed
values produced by `_parse_metadata_string` are not examined by any
claim and are not modelled). -/
structure FlatNode where
  node_id : List Char
  title : List Char
  description : List Char
  metadata : List (List Char)
  parentIdx : Option Nat
  childIdxs : List Nat
  expanded : Bool
deriving Repr, DecidableEq, Inhabited

/-- `TikiParseError`: message with 1-based line number and raw line. -/
structure TikiParseError where
  message : String
  lineNumber : Nat
  lineContent : List Char
deriving Repr, DecidableEq, Inhabited

/-- Full parser state: the fields of `TikiParser` after `reset()`, plus
the two loop-local variables of `TikiParser.parse`
(`current_concept`, `pending_description_lines`). -/
structure ParserState where
  nodes : List FlatNode
  root : Option Nat
  parentStack : List Nat
  idParts : List Nat
  lineNumber : Nat
  inFrontmatter : Bool
  inCodeBlock : Bool
  codeBlockLang : Option (List Char)
  fmLines : List (List Char)
  frontmatter : List (List Char × List Char)
  currentConcept : Option Nat
  pendingDesc : List (List Char)
deriving Repr, DecidableEq, Inhabited

/-- State after `TikiParser.reset()`: in particular
`current_id_parts = [0] * 10` (ten levels) and an empty `frontmatter`
dictionary. -/
def initState : ParserState :=
  { nodes := [], root := none, parentStack := [],
    idParts := List.replicate 10 0, lineNumber := 0,
    inFrontmatter := false, inCodeBlock := false, codeBlockLang := none,
    fmLines := [], frontmatter := [], currentConcept := none,
    pendingDesc := [] }

/-- A `TikiParseError` raised with default line information (the
constructor defaults `line_number=0, line_content=""`). -/
def emptyErr (msg : String) : TikiParseError :=
  { message := msg, lineNumber := 0, lineContent := [] }

/-- ID construction of `_create_concept_node` (lines 270-277): for each
level `i` below `level`, an asterisk run of length `i+1` followed by the
decimal counter at index `i`. -/
def buildId (parts : List Nat) (level : Nat) : List Char :=
  (List.range level).foldl
    (fun acc i => acc ++ List.replicate (i + 1) '*' ++ natChars (parts.getD i 0)) []

/-- The counter reset loop `for i in range(level, len(parts)): parts[i] = 0`. -/
def zeroFrom (l : List Nat) (k : Nat) : List Nat :=
  l.take k ++ List.replicate (l.length - k) 0

/-- Append a child index to a node's ordered child list. -/
def addChild (n : FlatNode) (c : Nat) : FlatNode :=
  { n with childIdxs := n.childIdxs ++ [c] }

/-- The counter update of the non-root arm of `_create_concept_node`
(lines 263-268): increment the counter at index `level-1`, then reset
every deeper counter. -/
def childParts (st : ParserState) (level : Nat) : List Nat :=
  zeroFrom (st.idParts.set (level - 1) (st.idParts.getD (level - 1) 0 + 1)) level

/-- The new node built by the non-root arm: id from the updated
counters, parent from the popped stack's top (`None` when the stack is
empty), empty child list, `expanded` defaulting to true. -/
def childNodeOf (st : ParserState) (level : Nat) (title : List Char)
    (metadata : List (List Char)) : FlatNode :=
  { node_id := buildId (childParts st level) level, title := title, description := [],
    metadata := metadata, parentIdx := (st.parentStack.take level).getLast?,
    childIdxs := [], expanded := true }

/-- The arena after the non-root arm: the new node appended, and (when
a parent exists) the new index appended to the parent's child list, as
`anytree` does on construction. -/
def childArena (st : ParserState) (level : Nat) (title : List Char)
    (metadata : List (List Char)) : List FlatNode :=
  let nodes1 := st.nodes ++ [childNodeOf st level title metadata]
  match (st.parentStack.take level).getLast? with
  | some p => nodes1.set p (addChild (nodes1.getD p default) st.nodes.length)
  | none => nodes1

/-- The non-root arm of `_create_concept_node` (lines 263-299):
increment and reset the counters, build the id, pop the parent stack to
`level` entries, attach the node under the resulting stack top (or no
parent if the stack is empty), and push the new node. -/
def createChildNode (st : ParserState) (level : Nat) (title : List Char)
    (metadata : List (List Char)) : ParserState × Nat :=
  ({ st with nodes := childArena st level title metadata,
             idParts := childParts st level,
             parentStack := st.parentStack.take level ++ [st.nodes.length] },
   st.nodes.length)

/-- `TikiParser._create_concept_node` (lines 234-299).  The checks run
in source order: empty title, then the root arm (level 0, at most one
root, empty id, metadata update skipped by the early return), then the
level-jump check (skipped when the parent stack is empty), then node
creation. -/
def createConceptNode (st : ParserState) (level : Nat) (title : List Char)
    (metadata : List (List Char)) : Except TikiParseError (ParserState × Nat) :=
  if title.isEmpty then .error (emptyErr "Concept title cannot be empty")
  else if level = 0 then
    match st.root with
    | some _ => .error (emptyErr "Multiple root concepts not allowed")
    | none =>
      let idx := st.nodes.length
      let node : FlatNode :=
        { node_id := [], title := title, description := [], metadata := [],
          parentIdx := none, childIdxs := [], expanded := true }
      .ok ({ st with nodes := st.nodes ++ [node], root := some idx,
                     parentStack := [idx] }, idx)
  else
    match st.parentStack with
    | [] => .ok (createChildNode st level title metadata)
    | _ :: _ =>
      if level > (st.parentStack.length - 1) + 1 then
        .error (emptyErr ("Invalid level jump: found level " ++ toString level
          ++ ", expected max " ++ toString ((st.parentStack.length - 1) + 1)))
      else .ok (createChildNode st level title metadata)

/-- Set a node's description. -/
def setDesc (n : FlatNode) (d : List Char) : FlatNode := { n with description := d }

/-- Description finalization (`parse` lines 143-145 and 219-221): if a
concept is open and description lines are pending, join them with
newlines, strip, and store on the open concept.  The pending buffer is
not cleared here, exactly as in the source. -/
def finalizePending (st : ParserState) : ParserState :=
  match st.currentConcept with
  | some i =>
    if st.pendingDesc.isEmpty then st
    else
      let d := stripL (joinNL st.pendingDesc)
      { st with nodes := st.nodes.set i (setDesc (st.nodes.getD i default) d) }
  | none => st

/-- The frontmatter delimiter test `^---\s*$` applied to an rstripped
line: the line is exactly `---`. -/
def fmDelim (l : List Char) : Bool := l == ['-', '-', '-']

/-- The word characters of `\w` (ASCII), for the fence language tag. -/
def isWordCh (c : Char) : Bool := c.isAlphanum || c = '_'

/-- Processing of one line after the frontmatter-delimiter check fell
through (`parse` lines 103-214): frontmatter accumulation, code-fence
toggling, blank lines, then the concept pattern with its three
non-matching fallbacks. -/
def processLineRest (st : ParserState) (line : List Char) :
    Except TikiParseError ParserState :=
  if st.inFrontmatter then .ok { st with fmLines := st.fmLines ++ [line] }
  else if fenceChars.isPrefixOf line then
    let lang := (line.drop 3).takeWhile isWordCh
    let pd := if st.currentConcept.isSome then st.pendingDesc ++ [line] else st.pendingDesc
    if !st.inCodeBlock then
      .ok { st with inCodeBlock := true,
                    codeBlockLang := some (if lang.isEmpty then ['t', 'e', 'x', 't'] else lang),
                    pendingDesc := pd }
    else
      .ok { st with inCodeBlock := false, codeBlockLang := none, pendingDesc := pd }
  else if (stripL line).isEmpty then
    if st.currentConcept.isSome ∧ ¬st.pendingDesc.isEmpty then
      .ok { st with pendingDesc := st.pendingDesc ++ [[]] }
    else .ok st
  else
    match matchConcept line with
    | some (tok, titleRaw) =>
      let st1 := finalizePending st
      let titleMeta := stripL titleRaw
      let title := stripMetaTitle titleMeta
      let level := computeLevel tok
      match createConceptNode st1 level title (findMeta titleMeta) with
      | .error e => .error { e with lineNumber := st.lineNumber, lineContent := line }
      | .ok (st2, idx) => .ok { st2 with currentConcept := some idx, pendingDesc := [] }
    | none =>
      match st.currentConcept with
      | none =>
        if line.head? ≠ some '*' then
          match createConceptNode st 0 (stripL line) [] with
          | .error e => .error e
          | .ok (st2, idx) => .ok { st2 with currentConcept := some idx, pendingDesc := [] }
        else
          .error { message := "File must start with root concept (no asterisks)",
                   lineNumber := st.lineNumber, lineContent := line }
      | some _ => .ok { st with pendingDesc := st.pendingDesc ++ [line] }

/-- One iteration of the line loop of `TikiParser.parse` (lines 88-214):
bump the line number, rstrip, check the frontmatter delimiter (entering
only within the first 10 lines when not already inside, any later
delimiter while inside exits, and a delimiter that does neither falls
through to normal processing), then the rest. -/
def processLine (st0 : ParserState) (raw : List Char) :
    Except TikiParseError ParserState :=
  let st := { st0 with lineNumber := st0.lineNumber + 1 }
  let line := rstripL raw
  if fmDelim line then
    if ¬st.inFrontmatter ∧ st.lineNumber ≤ 10 then
      .ok { st with inFrontmatter := true }
    else if st.inFrontmatter then
      .ok { st with inFrontmatter := false }
    else processLineRest st line
  else processLineRest st line

/-- The error raised when no root was ever created (`parse` line 227). -/
def noConceptsErr : TikiParseError := emptyErr "No valid concepts found in file"

/-- `TikiParser.parse` on a list of lines: fold the line processor over
the input from the reset state, finalize the last open concept's
description, and fail if no root concept was created.  The full final
parser state is returned; the Python method returns `self.root`. -/
def tikiParseRun (lines : List (List Char)) : Except TikiParseError ParserState :=
  match lines.foldlM processLine initState with
  | .error e => .error e
  | .ok st =>
    let st1 := finalizePending st
    match st1.root with
    | none => .error noConceptsErr
    | some _ => .ok st1

/-- The parse result as the Python caller sees it: the node arena in
creation order together with the index of the returned root. -/
def tikiParse (lines : List (List Char)) :
    Except TikiParseError (List FlatNode × Nat) :=
  match tikiParseRun lines with
  | .error e => .error e
  | .ok st => .ok (st.nodes, st.root.getD 0)

/-- Python `s.count("**")`: non-overlapping occurrences of a double
asterisk, scanned left to right. -/
def countDoubleStar : List Char → Nat
  | '*' :: '*' :: rest => 1 + countDoubleStar rest
  | _ :: rest => countDoubleStar rest
  | [] => 0

/-- The derived `TikiNode.depth` property of `core.py` (lines 54-58):
0 for an empty id, otherwise the count of `"**"` occurrences plus 1 if
the id starts with an asterisk. -/
def nodeDepth (node_id : List Char) : Nat :=
  if node_id.isEmpty then 0
  else countDoubleStar node_id + (if node_id.head? = some '*' then 1 else 0)

/-- The derived `TikiNode.is_root` property of `core.py` (lines 63-65). -/
def nodeIsRoot (node_id : List Char) : Bool := !(node_id.head? == some '*')

mutual
/-- A `TikiNode` tree as consumed by the renderer and the navigator:
id, title, description, the `expanded` UI flag, and the ordered child
sequence (`tiki_children`). -/
inductive TNode where
  | node (node_id title description : List Char) (expanded : Bool) (children : TForest)
deriving DecidableEq
inductive TForest where
  | nil
  | cons (n : TNode) (f : TForest)
deriving DecidableEq
end

/-- The id of a tree node. -/
def TNode.nodeId : TNode → List Char
  | .node i _ _ _ _ => i

/-- The title of a tree node. -/
def TNode.titleOf : TNode → List Char
  | .node _ t _ _ _ => t

/-- The `expanded` flag of a tree node. -/
def TNode.expandedOf : TNode → Bool
  | .node _ _ _ e _ => e

/-- The ordered child sequence of a tree node. -/
def TNode.childrenOf : TNode → TForest
  | .node _ _ _ _ c => c

/-- Whether a `tiki_children` list is nonempty. -/
def hasChildren : TForest → Bool
  | .nil => false
  | .cons _ _ => true

/-- Python `str.lower()` (ASCII). -/
def lowerL (l : List Char) : List Char := l.map Char.toLower

/-- Python substring containment `pat in s`. -/
def hasSub (pat : List Char) : List Char → Bool
  | [] => pat.isEmpty
  | c :: rest => pat.isPrefixOf (c :: rest) || hasSub pat rest

/-- The match test of `TikiNavigator._search_tree` (lines 262-263):
`query in node.title.lower() or query in node.node_id.lower()` for an
already-lowercased query. -/
def qMatch (q : List Char) (n : TNode) : Bool :=
  hasSub q (lowerL n.titleOf) || hasSub q (lowerL n.nodeId)

mutual
/-- `TikiNavigator._search_tree` (lines 255-270): recursive pre-order
collection of the nodes matching the query, starting at the root. -/
def searchTree (q : List Char) : TNode → List TNode
  | .node i t d e cs =>
    (if qMatch q (.node i t d e cs) then [TNode.node i t d e cs] else [])
      ++ searchForest q cs
def searchForest (q : List Char) : TForest → List TNode
  | .nil => []
  | .cons n f => searchTree q n ++ searchForest q f
end

mutual
/-- Document pre-order traversal of a tree: node first, then its
children left to right, recursively. -/
def preorder : TNode → List TNode
  | .node i t d e cs => TNode.node i t d e cs :: preorderF cs
def preorderF : TForest → List TNode
  | .nil => []
  | .cons n f => preorder n ++ preorderF f
end

/-- The pure selection core of `TikiNavigator.on_input_submitted`
(lines 215-237): lowercase the submitted value, search the tree, and on
a nonempty result select the first match and report the match count
(the widget updates themselves are UI side effects and not modelled). -/
def submitSearch (root : TNode) (value : List Char) : Option (TNode × Nat) :=
  match searchTree (lowerL value) root with
  | [] => none
  | m :: ms => some (m, (m :: ms).length)

/-- The collapse marker `" [+]"` appended by the renderer. -/
def collapseMark : List Char := [' ', '[', '+', ']']

/-- Visibility test used by the renderer (lines 196 and 204):
`child.node_id in expanded_nodes or child.expanded`. -/
def nodeVisible (expandedNodes : List (List Char)) (n : TNode) : Bool :=
  expandedNodes.contains n.nodeId || n.expandedOf

mutual
/-- `TikiRenderer._build_ascii_lines` (lines 169-207) in pure form: for
each child in order emit `prefix + connector + id + " " + title`, with
the collapse marker when the child has children but is not visible, and
recurse into visible children with the extended prefix.  The connector
is `"└── "` for the last child and `"├── "` otherwise, and the prefix
grows by `"    "` or `"│   "` accordingly. -/
def buildAsciiF (en : List (List Char)) (pfx : List Char) : TForest → List (List Char)
  | .nil => []
  | .cons c f =>
    let isLast := !hasChildren f
    let conn := if isLast then ['└', '─', '─', ' '] else ['├', '─', '─', ' ']
    let nextPfx := pfx ++ (if isLast then [' ', ' ', ' ', ' '] else ['│', ' ', ' ', ' '])
    let line0 := pfx ++ conn ++ c.nodeId ++ ' ' :: c.titleOf
    let line := if hasChildren c.childrenOf && !nodeVisible en c then
        line0 ++ collapseMark
      else line0
    let sub := if nodeVisible en c && hasChildren c.childrenOf then
        buildAsciiN en nextPfx c
      else []
    line :: (sub ++ buildAsciiF en pfx f)
def buildAsciiN (en : List (List Char)) (pfx : List Char) : TNode → List (List Char)
  | .node _ _ _ _ cs => buildAsciiF en pfx cs
end

/-- `TikiRenderer.export_ascii_tree` (lines 144-164) as the list of
emitted lines: the root title without indentation, then the recursively
built child lines ('\n'-joining is presentation only). -/
def exportAsciiTree (root : TNode) (en : List (List Char)) : List (List Char) :=
  root.titleOf :: buildAsciiN en [] root

/-- Shorthand turning a string literal into the character-list line
representation used throughout. -/
def toChars (s : String) : List Char := s.toList

/-- A parser state holding exactly one root concept, obtained by the
root arm of `_create_concept_node` from the reset state. -/
def rootedState : ParserState :=
  match createConceptNode initState 0 (toChars "Root") [] with
  | .ok (s, _) => s
  | .error _ => initState

/-- A sequence of `_create_concept_node` calls at the given levels (with
a fixed title and no metadata, neither of which influences numbering). -/
def createMany (st : ParserState) (levels : List Nat) :
    Except TikiParseError ParserState :=
  levels.foldlM (fun s l => (createConceptNode s l (toChars "T") []).map (fun p => p.1)) st

/-- A leaf tree node with the given id and title. -/
def leafT (i t : String) : TNode := TNode.node (toChars i) (toChars t) [] true .nil

/-- A sample tree whose root has three children, two of whose titles
contain the substring `"Alpha"`. -/
def sampleSearchTree : TNode :=
  TNode.node [] (toChars "Root") [] true
    (.cons (leafT "*1" "Alpha One")
      (.cons (leafT "*2" "Beta")
        (.cons (leafT "*3" "Alpha Two") .nil)))

/-- Node lookup in the arena, with the `Inhabited` default out of
bounds (never reached under the parse invariant). -/
def nget (nodes : List FlatNode) (i : Nat) : FlatNode := nodes.getD i default

/-- Structural facts maintained while a root exists: the root sits at
index 0 with the empty id, every parent-stack slot `j` holds an
in-bounds node whose id is built from the first `j` counters, every
non-root node links to an earlier parent whose id it extends by exactly
one asterisk run and counter, and the child lists are sorted by creation
index and mutually consistent with the `parentIdx` links. -/
structure RootSt (nodes : List FlatNode) (stack : List Nat) (parts : List Nat) : Prop where
  nodesNe : 0 < nodes.length
  rootId : (nget nodes 0).node_id = []
  stackNe : stack ≠ []
  stackLt : ∀ j, j < stack.length → stack.getD j 0 < nodes.length
  stackId : ∀ j, j < stack.length →
    (nget nodes (stack.getD j 0)).node_id = buildId parts j
  links : ∀ i, i < nodes.length → i ≠ 0 →
    ∃ p m, p < i ∧ (nget nodes i).parentIdx = some p ∧
      (nget nodes i).node_id =
        (nget nodes p).node_id ++
          List.replicate (countStarRuns (nget nodes p).node_id + 1) '*' ++
          natChars m ∧
      countStarRuns (nget nodes i).node_id =
        countStarRuns (nget nodes p).node_id + 1
  childLt : ∀ i, i < nodes.length → ∀ c ∈ (nget nodes i).childIdxs, c < nodes.length
  childSorted : ∀ i, i < nodes.length →
    List.Pairwise (fun a b => a < b) (nget nodes i).childIdxs
  childParent : ∀ i, i < nodes.length → ∀ c ∈ (nget nodes i).childIdxs,
    (nget nodes c).parentIdx = some i
  parentChild : ∀ i p, i < nodes.length → (nget nodes i).parentIdx = some p →
    i ∈ (nget nodes p).childIdxs

/-- The parse-loop invariant over the five structural components of the
parser state: before any concept exists the arena is empty, a root (if
any) is node 0, and with a root present the full `RootSt` facts hold. -/
structure InvC (nodes : List FlatNode) (root : Option Nat) (stack : List Nat)
    (parts : List Nat) (cur : Option Nat) : Prop where
  curNone : cur = none → nodes = [] ∧ root = none
  rootZero : ∀ r, root = some r → r = 0
  rooted : root.isSome = true → RootSt nodes stack parts

/-- The parse-loop invariant on a full parser state. -/
def PInv (st : ParserState) : Prop :=
  InvC st.nodes st.root st.parentStack st.idParts st.currentConcept

/-- A two-line sample document used to witness the parse invariant. -/
def c10SampleLines : List (List Char) := [toChars "Root", toChars "*1 A"]

/-- The state of the successful parse of `c10SampleLines`. -/
def c10SampleState : ParserState :=
  match tikiParseRun c10SampleLines with
  | .ok st => st
  | .error _ => initState

end Tiki

namespace Tiki

/-! ## Theorems settling the claims -/

/-- Claim C1 (code-bug evaluation): the marker token `*1**2` has two
asterisk runs, but the level computation of `TikiParser.parse` assigns
level 1, because `re.sub(r'[0-9a-zA-Z]', '', ...)` removes the digits
separating the runs before they are counted, merging adjacent runs.
Parsing a document whose marker lines are `*1` and `*1**2` therefore
produces sibling ids `*1` and `*2` instead of nesting `*1**2` under
`*1`, contradicting both the claim and the code's own comment
(`Examples: *1=1, *1**1=2, ...`, parser.py line 171). -/
theorem c1_marker_run_level_eval :
    countStarRuns (toChars "*1**2") = 2 ∧
    computeLevel (toChars "*1**2") = 1 ∧
    (tikiParse [toChars "Root", toChars "*1 A", toChars "*1**2 B"]).map
        (fun r => r.1.map (fun n => (n.node_id, n.title))) =
      .ok [([], toChars "Root"), (toChars "*1", toChars "A"),
           (toChars "*2", toChars "B")] :=
  ⟨by rfl, by rfl, by rfl⟩

/-- Claim C2 (code-bug evaluation): `TikiParser.parse` toggles
`in_code_block` on fence lines but never consults it when matching
concept lines, so the line `*1 Fake` between an opening and a closing
fence still creates a concept node; parsing the four lines
`Root`, ```` ``` ````, `*1 Fake`, ```` ``` ```` yields two nodes, the
second created from inside the fenced block, instead of one node with
the fenced content preserved as description. -/
theorem c2_code_fence_concept_eval :
    (tikiParse [toChars "Root", fenceChars, toChars "*1 Fake", fenceChars]).map
        (fun r => r.1.map (fun n => (n.node_id, n.title, n.description))) =
      .ok [([], toChars "Root", fenceChars),
           (toChars "*1", toChars "Fake", fenceChars)] := by
  rfl

/-- Claim C4 counterexample: the line `** ` (nothing after the markers)
does not make the parse fail; after `rstrip` it no longer matches the
concept pattern (which requires whitespace then text after the marker
token), so it is accumulated as description text of the open concept
and the parse succeeds. -/
theorem c4_empty_title_counterexample :
    (tikiParse [toChars "Root", toChars "** "]).map
        (fun r => r.1.map (fun n => (n.node_id, n.title, n.description))) =
      .ok [([], toChars "Root", toChars "**")] := by
  rfl

/-- Claim C4 as amended: a line that does match the concept pattern and
whose title is empty after metadata stripping and whitespace trim (such
as `** [x]`) fails the parse with "Concept title cannot be empty"
carrying that exact line's 1-based line number, while the literal line
`** ` does not match the concept pattern at all. -/
theorem c4_empty_title_amended :
    matchConcept (rstripL (toChars "** ")) = none ∧
    tikiParseRun [toChars "Root", toChars "** [x]"] =
      .error { message := "Concept title cannot be empty", lineNumber := 2,
               lineContent := toChars "** [x]" } :=
  ⟨by rfl, by rfl⟩

/-- Claim C6 (code-bug evaluation): the frontmatter state machine works
as claimed (the `---` delimiters within the first 10 lines enter and
exit frontmatter, the inner line `title: Demo` produces no concept node,
and the root is parsed from the line after the block), but the
accumulated lines are never YAML-parsed: the `yaml` import of parser.py
is unused and `self.frontmatter` remains the empty dictionary left by
`reset()`, so no document-level metadata is exposed. -/
theorem c6_frontmatter_eval :
    (tikiParseRun [toChars "---", toChars "title: Demo", toChars "---",
        toChars "Root"]).map
        (fun st => (st.nodes.map (fun n => (n.node_id, n.title)),
                    st.fmLines, st.frontmatter, st.inFrontmatter)) =
      .ok ([([], toChars "Root")], [toChars "title: Demo"], [], false) := by
  rfl

/-- The counters below an updated level are untouched by the reset loop. -/
theorem zeroFrom_getD_lt (l : List Nat) (k j : Nat) (h : j < k) :
    (zeroFrom l k).getD j 0 = l.getD j 0 := by
  unfold zeroFrom
  rcases lt_or_ge j l.length with hj | hj
  · rw [List.getD_eq_getElem?_getD, List.getElem?_append, List.getElem?_take]
    simp [h, hj, List.getD_eq_getElem?_getD, List.getElem?_eq_getElem hj]
  · have h1 : l[j]? = none := List.getElem?_eq_none (by omega)
    have h2 : (List.take k l ++ List.replicate (l.length - k) 0)[j]? = none := by
      apply List.getElem?_eq_none
      simp [List.length_take]
      omega
    rw [List.getD_eq_getElem?_getD, List.getD_eq_getElem?_getD, h1, h2]

/-- The counters at and above the reset point read as zero. -/
theorem zeroFrom_getD_ge (l : List Nat) (k j : Nat) (h : k ≤ j) :
    (zeroFrom l k).getD j 0 = 0 := by
  unfold zeroFrom
  rw [List.getD_eq_getElem?_getD]
  rw [List.getElem?_append_right (by simp [List.length_take]; omega)]
  rw [List.getElem?_replicate]
  split <;> simp

/-- Reading back an in-bounds `List.set`. -/
theorem setD_getD (l : List Nat) (i : Nat) (v : Nat) (h : i < l.length) :
    (l.set i v).getD i 0 = v := by
  rw [List.getD_eq_getElem?_getD, List.getElem?_set_self (by simpa using h)]
  rfl

/-- Counter bookkeeping of `createChildNode`: the counter at index
`level-1` is incremented and every counter at index `≥ level` is reset
to zero. -/
theorem createChildNode_idParts (st : ParserState) (level : Nat) (title : List Char)
    (md : List (List Char)) (h1 : 1 ≤ level) (h2 : level ≤ st.idParts.length) :
    ((createChildNode st level title md).1.idParts.getD (level - 1) 0 =
      st.idParts.getD (level - 1) 0 + 1) ∧
    ∀ j, level ≤ j → (createChildNode st level title md).1.idParts.getD j 0 = 0 := by
  unfold createChildNode
  constructor
  · show (zeroFrom _ level).getD (level - 1) 0 = _
    rw [zeroFrom_getD_lt _ _ _ (by omega)]
    exact setD_getD _ _ _ (by omega)
  · intro j hj
    exact zeroFrom_getD_ge _ _ _ hj

/-- A successful `_create_concept_node` call at a positive level goes
through `createChildNode`. -/
theorem createConceptNode_ok_eq (st : ParserState) (level : Nat) (title : List Char)
    (md : List (List Char)) (st' : ParserState) (idx : Nat) (h1 : 1 ≤ level)
    (hok : createConceptNode st level title md = .ok (st', idx)) :
    st' = (createChildNode st level title md).1 := by
  unfold createConceptNode at hok
  split at hok
  · exact absurd hok (by simp)
  · split at hok
    · omega
    · split at hok
      · rw [Except.ok.injEq] at hok
        rw [hok]
      · split at hok
        · exact absurd hok (by simp)
        · rw [Except.ok.injEq] at hok
          rw [hok]

/-- Claim C3: creating concepts at levels 1, 2, 2, 1, 2 under an
existing root assigns ids `*1`, `*1**1`, `*1**2`, `*2`, `*2**1`; and in
general a successful creation at level `L ≥ 1` (within the ten counter
slots) increments the level-`L` counter (index `L-1`) by one and resets
every counter at levels greater than `L` (index `≥ L`) to zero. -/
theorem c3_numbering_reset :
    ((createMany rootedState [1, 2, 2, 1, 2]).map
        (fun st => st.nodes.map (fun n => n.node_id)) =
      .ok [[], toChars "*1", toChars "*1**1", toChars "*1**2", toChars "*2",
           toChars "*2**1"])
    ∧ ∀ (st : ParserState) (level : Nat) (title : List Char)
        (md : List (List Char)) (st' : ParserState) (idx : Nat),
        1 ≤ level → level ≤ st.idParts.length →
        createConceptNode st level title md = .ok (st', idx) →
        st'.idParts.getD (level - 1) 0 = st.idParts.getD (level - 1) 0 + 1 ∧
        ∀ j, level ≤ j → st'.idParts.getD j 0 = 0 := by
  constructor
  · rfl
  · intro st level title md st' idx h1 h2 hok
    have he := createConceptNode_ok_eq st level title md st' idx h1 hok
    subst he
    exact createChildNode_idParts st level title md h1 h2

/-- Witness for C3: the general counter statement discharged at a
concrete creation (level 1 under the freshly created root). -/
theorem c3_numbering_reset_witness :
    ∃ (st' : ParserState) (idx : Nat),
      createConceptNode rootedState 1 (toChars "T") [] = .ok (st', idx) ∧
      st'.idParts.getD 0 0 = rootedState.idParts.getD 0 0 + 1 ∧
      ∀ j, 1 ≤ j → st'.idParts.getD j 0 = 0 := by
  refine ⟨(createChildNode rootedState 1 (toChars "T") []).1, 1, by rfl, ?_⟩
  exact c3_numbering_reset.2 rootedState 1 (toChars "T") []
    (createChildNode rootedState 1 (toChars "T") []).1 1
    (by omega) (by decide) (by rfl)

/-- Claim C5: once a root exists, `_create_concept_node` at level 0 with
any (nonempty) title fails with "Multiple root concepts not allowed";
within `parse`, level-0 creation is exactly the "attempt a root concept"
path, so at most one root is permitted per parsed document. -/
theorem c5_multiple_roots_rejected (st : ParserState) (title : List Char)
    (md : List (List Char)) (h1 : title ≠ []) (h2 : st.root.isSome = true) :
    createConceptNode st 0 title md =
      .error (emptyErr "Multiple root concepts not allowed") := by
  obtain ⟨r, hr⟩ := Option.isSome_iff_exists.mp h2
  unfold createConceptNode
  rw [hr]
  simp [List.isEmpty_iff, h1]

/-- Witness for C5: the rejection fires at a concrete state that already
holds a root. -/
theorem c5_multiple_roots_rejected_witness :
    (toChars "Another" ≠ [] ∧ rootedState.root.isSome = true) ∧
    createConceptNode rootedState 0 (toChars "Another") [] =
      .error (emptyErr "Multiple root concepts not allowed") :=
  ⟨⟨by decide, by rfl⟩,
   c5_multiple_roots_rejected rootedState (toChars "Another") [] (by decide) (by rfl)⟩

/-- Claim C7 (code-bug evaluation): `TikiNode.depth` counts
non-overlapping `"**"` occurrences plus one, which equals the number of
asterisk groups only up to three groups; the four-group id
`*1**1***1****1` has four asterisk runs but the property returns 5,
because the four-asterisk run contributes two `"**"` occurrences. -/
theorem c7_depth_eval :
    nodeDepth [] = 0 ∧
    nodeDepth (toChars "*1") = 1 ∧
    nodeDepth (toChars "*1**2") = 2 ∧
    nodeDepth (toChars "*1**2***1") = 3 ∧
    countStarRuns (toChars "*1**1***1****1") = 4 ∧
    nodeDepth (toChars "*1**1***1****1") = 5 :=
  ⟨by rfl, by rfl, by rfl, by rfl, by rfl, by rfl⟩

mutual
/-- `_search_tree` collects exactly the matching nodes of the pre-order
traversal, in pre-order. -/
theorem searchTree_eq_filter (q : List Char) (t : TNode) :
    searchTree q t = (preorder t).filter (qMatch q) := by
  cases t with
  | node i ti d e cs =>
    rw [searchTree, preorder, List.filter]
    rw [searchForest_eq_filter q cs]
    by_cases h : qMatch q (TNode.node i ti d e cs) <;> simp [h]
/-- Forest version of `searchTree_eq_filter`. -/
theorem searchForest_eq_filter (q : List Char) (f : TForest) :
    searchForest q f = (preorderF f).filter (qMatch q) := by
  cases f with
  | nil => rfl
  | cons n f2 =>
    rw [searchForest, preorderF, List.filter_append]
    rw [searchTree_eq_filter q n, searchForest_eq_filter q f2]
end

/-- First-match/count selection in `head?`-and-`length` form. -/
theorem head_map_form (l : List TNode) :
    (match l with
      | [] => none
      | m :: ms => some (m, (m :: ms).length)) =
    l.head?.map (fun m => (m, l.length)) := by
  cases l <;> rfl

/-- Claim C8: search lowercases the query and is matched against
lowercased titles and ids (case-insensitive substring search); for every
tree it returns exactly the matching nodes in document pre-order, and a
submitted search selects the first match in that order and reports the
match count.  The concrete part: a query contained in two node titles
returns both in pre-order, and submitting it (in mixed case) selects the
first and reports a count of 2. -/
theorem c8_search_preorder :
    (∀ (t : TNode) (value : List Char),
      searchTree (lowerL value) t = (preorder t).filter (qMatch (lowerL value)) ∧
      submitSearch t value =
        ((preorder t).filter (qMatch (lowerL value))).head?.map
          (fun m => (m, ((preorder t).filter (qMatch (lowerL value))).length))) ∧
    (searchTree (toChars "alpha") sampleSearchTree =
        [leafT "*1" "Alpha One", leafT "*3" "Alpha Two"] ∧
      submitSearch sampleSearchTree (toChars "ALPha") =
        some (leafT "*1" "Alpha One", 2)) := by
  constructor
  · intro t value
    refine ⟨searchTree_eq_filter _ _, ?_⟩
    rw [submitSearch, searchTree_eq_filter]
    exact head_map_form _
  · exact ⟨by rfl, by rfl⟩

/-- Claim C9: in the ASCII export (with an empty `expanded_nodes` set)
of a tree whose root has two children where the first child is collapsed
(`expanded = false`) and has descendants, the collapsed child's line is
suffixed with the collapse marker `" [+]"` and none of its descendants
appear — the output does not depend on the collapsed subtree at all. -/
theorem c9_ascii_collapse (rid rt rd : List Char) (re1 : Bool)
    (cid ct cd : List Char) (sub : TForest) (hsub : sub ≠ TForest.nil) (c2 : TNode) :
    exportAsciiTree
      (TNode.node rid rt rd re1
        (.cons (TNode.node cid ct cd false sub) (.cons c2 .nil))) [] =
      rt :: ((['├', '─', '─', ' '] ++ cid ++ ' ' :: ct) ++ collapseMark)
         :: buildAsciiF [] [] (.cons c2 .nil) := by
  cases sub with
  | nil => exact absurd rfl hsub
  | cons s f => rfl

/-- Witness for C9: a concrete two-child root with a collapsed first
child holding one hidden descendant exports exactly three lines. -/
theorem c9_ascii_collapse_witness :
    ((TForest.cons (leafT "*1**1" "Hidden") .nil) ≠ TForest.nil) ∧
    exportAsciiTree
      (TNode.node [] (toChars "Root") [] true
        (.cons (TNode.node (toChars "*1") (toChars "Closed") [] false
            (.cons (leafT "*1**1" "Hidden") .nil))
          (.cons (leafT "*2" "Open") .nil))) [] =
      [toChars "Root", toChars "├── *1 Closed [+]", toChars "└── *2 Open"] := by
  constructor
  · exact fun h => TForest.noConfusion h
  · have h := c9_ascii_collapse [] (toChars "Root") [] true (toChars "*1")
      (toChars "Closed") [] (.cons (leafT "*1**1" "Hidden") .nil)
      (fun h => TForest.noConfusion h) (leafT "*2" "Open")
    rw [h]
    rfl

end Tiki

namespace Tiki

theorem endStar_append (a b : List Char) (f : Bool) :
    endStar (a ++ b) f = endStar b (endStar a f) := by
  unfold endStar
  exact List.foldl_append _ _ _ _

theorem starRuns_append (a b : List Char) (f : Bool) :
    starRuns (a ++ b) f = starRuns a f + starRuns b (endStar a f) := by
  induction a generalizing f with
  | nil => simp [starRuns, endStar]
  | cons c rest ih =>
    by_cases hc : c = '*'
    · simp only [List.cons_append, starRuns, if_pos hc, List.append_eq]
      rw [ih true]
      have he : endStar (c :: rest) f = endStar rest true := by
        simp [endStar, hc]
      rw [he]
      omega
    · simp only [List.cons_append, starRuns, if_neg hc, List.append_eq]
      rw [ih false]
      have he : endStar (c :: rest) f = endStar rest false := by
        simp [endStar, hc]
      rw [he]

theorem starRuns_no_star (l : List Char) (f : Bool) (h : ∀ c ∈ l, c ≠ '*') :
    starRuns l f = 0 := by
  induction l generalizing f with
  | nil => rfl
  | cons c rest ih =>
    have hc : c ≠ '*' := h c (by simp)
    simp only [starRuns, if_neg hc]
    exact ih _ (fun x hx => h x (by simp [hx]))

theorem endStar_no_star : ∀ (l : List Char) (f : Bool),
    (∀ c ∈ l, c ≠ '*') → l ≠ [] → endStar l f = false := by
  intro l
  induction l with
  | nil => intro f h hne; exact absurd rfl hne
  | cons c rest ih =>
    intro f h _
    rcases rest with _ | ⟨d, rest2⟩
    · simp [endStar, h c (by simp)]
    · have hstep : endStar (c :: d :: rest2) f = endStar (d :: rest2) (decide (c = '*')) := by
        simp [endStar]
      rw [hstep]
      exact ih _ (fun x hx => h x (List.mem_cons_of_mem _ hx)) (by simp)

theorem starRuns_replicate_star (m : Nat) (hm : 0 < m) :
    starRuns (List.replicate m '*') false = 1 := by
  have key : ∀ k, starRuns (List.replicate k '*') true = 0 := by
    intro k
    induction k with
    | zero => rfl
    | succ n ih => simp [List.replicate_succ, starRuns, ih]
  rcases m with _ | n
  · omega
  · simp [List.replicate_succ, starRuns, key]

theorem endStar_replicate_star (m : Nat) (f : Bool) (hm : 0 < m) :
    endStar (List.replicate m '*') f = true := by
  induction m generalizing f with
  | zero => omega
  | succ n ih =>
    rcases Nat.eq_zero_or_pos n with hn | hn
    · subst hn; simp [endStar]
    · simp only [List.replicate_succ, endStar, List.foldl_cons]
      exact ih _ hn

theorem natCharsAux_no_star (fuel : Nat) :
    ∀ n, n < fuel → ∀ c ∈ natCharsAux fuel n, c ≠ '*' := by
  induction fuel with
  | zero => intro n hn; omega
  | succ m ih =>
    intro n hn c hc
    simp only [natCharsAux] at hc
    by_cases h10 : n < 10
    · rw [if_pos h10] at hc
      have hd : ∀ k, k < 10 → digitCh k ≠ '*' := by decide
      have hce : c = digitCh n := by simpa using hc
      rw [hce]; exact hd n h10
    · rw [if_neg h10] at hc
      rcases List.mem_append.mp hc with hc1 | hc2
      · exact ih (n / 10) (by omega) c hc1
      · have hd : ∀ k, k < 10 → digitCh k ≠ '*' := by decide
        have hce : c = digitCh (n % 10) := by simpa using hc2
        rw [hce]; exact hd (n % 10) (by omega)

theorem natChars_no_star (n : Nat) : ∀ c ∈ natChars n, c ≠ '*' :=
  natCharsAux_no_star (n + 1) n (by omega)

theorem natChars_ne_nil (n : Nat) : natChars n ≠ [] := by
  unfold natChars natCharsAux
  split
  · simp
  · simp

end Tiki

namespace Tiki

theorem buildId_zero (parts : List Nat) : buildId parts 0 = [] := rfl

theorem buildId_succ (parts : List Nat) (n : Nat) :
    buildId parts (n + 1) =
      buildId parts n ++ List.replicate (n + 1) '*' ++ natChars (parts.getD n 0) := by
  unfold buildId
  rw [List.range_succ, List.foldl_append]
  rfl

theorem buildId_congr (p1 p2 : List Nat) (level : Nat)
    (h : ∀ i, i < level → p1.getD i 0 = p2.getD i 0) :
    buildId p1 level = buildId p2 level := by
  induction level with
  | zero => rfl
  | succ n ih =>
    rw [buildId_succ, buildId_succ, ih (fun i hi => h i (by omega)), h n (by omega)]

theorem buildId_runs (parts : List Nat) (level : Nat) :
    starRuns (buildId parts level) false = level ∧
    endStar (buildId parts level) false = false := by
  induction level with
  | zero => exact ⟨rfl, rfl⟩
  | succ n ih =>
    rw [buildId_succ]
    have hrep1 : starRuns (List.replicate (n + 1) '*') false = 1 :=
      starRuns_replicate_star _ (by omega)
    have hrep2 : endStar (List.replicate (n + 1) '*') false = true :=
      endStar_replicate_star _ _ (by omega)
    have hnc1 : starRuns (natChars (parts.getD n 0)) true = 0 :=
      starRuns_no_star _ _ (natChars_no_star _)
    have hnc2 : endStar (natChars (parts.getD n 0)) true = false :=
      endStar_no_star _ _ (natChars_no_star _) (natChars_ne_nil _)
    constructor
    · rw [starRuns_append, endStar_append, starRuns_append, ih.1, ih.2, hrep1, hrep2, hnc1]
    · rw [endStar_append, endStar_append, ih.2, hrep2, hnc2]

theorem countStarRuns_buildId (parts : List Nat) (level : Nat) :
    countStarRuns (buildId parts level) = level :=
  (buildId_runs parts level).1

theorem setD_getD_ne (l : List Nat) (i j v : Nat) (h : i ≠ j) :
    (l.set i v).getD j 0 = l.getD j 0 := by
  rw [List.getD_eq_getElem?_getD, List.getD_eq_getElem?_getD, List.getElem?_set_ne h]

theorem getD_append_lt {α : Type} (l : List α) (x : α) (j : Nat) (d : α)
    (h : j < l.length) : (l ++ [x]).getD j d = l.getD j d := by
  rw [List.getD_eq_getElem?_getD, List.getD_eq_getElem?_getD, List.getElem?_append]
  simp [h]

theorem getD_append_self {α : Type} (l : List α) (x : α) (d : α) :
    (l ++ [x]).getD l.length d = x := by
  rw [List.getD_eq_getElem?_getD, List.getElem?_append_right (le_refl _)]
  simp

theorem getD_take_lt {α : Type} (l : List α) (k j : Nat) (d : α) (h : j < k) :
    (l.take k).getD j d = l.getD j d := by
  rw [List.getD_eq_getElem?_getD, List.getD_eq_getElem?_getD, List.getElem?_take]
  simp [h]

end Tiki

namespace Tiki

/-- Out-of-bounds arena lookups give the default node. -/
theorem nget_oob (nodes : List FlatNode) (q : Nat) (h : nodes.length ≤ q) :
    nget nodes q = default := by
  unfold nget
  rw [List.getD_eq_getElem?_getD, List.getElem?_eq_none h]
  rfl

/-- Appending a node preserves earlier lookups. -/
theorem nget_append_lt (nodes : List FlatNode) (x : FlatNode) (i : Nat)
    (h : i < nodes.length) : nget (nodes ++ [x]) i = nget nodes i :=
  getD_append_lt nodes x i default h

/-- Looking up the appended node. -/
theorem nget_append_self (nodes : List FlatNode) (x : FlatNode) :
    nget (nodes ++ [x]) nodes.length = x :=
  getD_append_self nodes x default

/-- Looking up an in-bounds update. -/
theorem nget_set_self (nodes : List FlatNode) (i : Nat) (y : FlatNode)
    (h : i < nodes.length) : nget (nodes.set i y) i = y := by
  unfold nget
  rw [List.getD_eq_getElem?_getD, List.getElem?_set_self h]
  rfl

/-- Updates do not disturb other indices. -/
theorem nget_set_ne (nodes : List FlatNode) (i j : Nat) (y : FlatNode)
    (h : i ≠ j) : nget (nodes.set i y) j = nget nodes j := by
  unfold nget
  rw [List.getD_eq_getElem?_getD, List.getD_eq_getElem?_getD, List.getElem?_set_ne h]

/-- A description update leaves every node's id, parent link and child
list unchanged. -/
theorem nget_setDesc_fields (nodes : List FlatNode) (i : Nat) (d : List Char) :
    ∀ q, (nget (nodes.set i (setDesc (nget nodes i) d)) q).node_id = (nget nodes q).node_id ∧
         (nget (nodes.set i (setDesc (nget nodes i) d)) q).parentIdx = (nget nodes q).parentIdx ∧
         (nget (nodes.set i (setDesc (nget nodes i) d)) q).childIdxs = (nget nodes q).childIdxs := by
  intro q
  by_cases hi : i < nodes.length
  · by_cases hq : i = q
    · subst hq
      rw [nget_set_self _ _ _ hi]
      exact ⟨rfl, rfl, rfl⟩
    · rw [nget_set_ne _ _ _ _ hq]
      exact ⟨rfl, rfl, rfl⟩
  · rw [List.set_eq_of_length_le (by omega)]
    exact ⟨rfl, rfl, rfl⟩

/-- The invariant only depends on lengths and on the id, parent and
child fields of the arena. -/
theorem InvC_fields (nodes nodes' : List FlatNode) (root : Option Nat)
    (stack parts : List Nat) (cur : Option Nat)
    (hlen : nodes'.length = nodes.length)
    (hf : ∀ q, (nget nodes' q).node_id = (nget nodes q).node_id ∧
               (nget nodes' q).parentIdx = (nget nodes q).parentIdx ∧
               (nget nodes' q).childIdxs = (nget nodes q).childIdxs)
    (h : InvC nodes root stack parts cur) : InvC nodes' root stack parts cur := by
  constructor
  · intro hc
    obtain ⟨h1, h2⟩ := h.curNone hc
    refine ⟨List.length_eq_zero.mp ?_, h2⟩
    simp [hlen, h1]
  · exact h.rootZero
  · intro hr
    have R := h.rooted hr
    constructor
    · rw [hlen]; exact R.nodesNe
    · rw [(hf 0).1]; exact R.rootId
    · exact R.stackNe
    · intro j hj
      rw [hlen]; exact R.stackLt j hj
    · intro j hj
      rw [(hf _).1]; exact R.stackId j hj
    · intro i hi hi0
      obtain ⟨p, m, h1, h2, h3, h4⟩ := R.links i (by omega) hi0
      refine ⟨p, m, h1, ?_, ?_, ?_⟩
      · rw [(hf i).2.1]; exact h2
      · rw [(hf i).1, (hf p).1]; exact h3
      · rw [(hf i).1, (hf p).1]; exact h4
    · intro i hi c hc
      rw [hlen]
      refine R.childLt i (by omega) c ?_
      rw [← (hf i).2.2]; exact hc
    · intro i hi
      rw [(hf i).2.2]; exact R.childSorted i (by omega)
    · intro i hi c hc
      rw [(hf c).2.1]
      refine R.childParent i (by omega) c ?_
      rw [← (hf i).2.2]; exact hc
    · intro i p hi hp
      rw [(hf p).2.2]
      refine R.parentChild i p (by omega) ?_
      rw [← (hf i).2.1]; exact hp

end Tiki

namespace Tiki

/-- Appending a strict upper bound keeps a child list sorted. -/
theorem pairwise_append_lt (l : List Nat) (x : Nat)
    (h : List.Pairwise (fun a b => a < b) l) (hx : ∀ c ∈ l, c < x) :
    List.Pairwise (fun a b => a < b) (l ++ [x]) := by
  rw [List.pairwise_append]
  refine ⟨h, List.pairwise_singleton _ _, ?_⟩
  intro a ha b hb
  simp at hb
  subst hb
  exact hx a ha

/-- A successful `_create_concept_node` call at a positive level is a
`createChildNode` call, and (when the parent stack is nonempty) passed
the level-jump check. -/
theorem createConceptNode_ok_facts (st : ParserState) (level : Nat) (title : List Char)
    (md : List (List Char)) (st2 : ParserState) (idx : Nat) (h1 : 1 ≤ level)
    (hok : createConceptNode st level title md = .ok (st2, idx)) :
    (st2, idx) = createChildNode st level title md ∧
    (st.parentStack ≠ [] → level ≤ st.parentStack.length) := by
  unfold createConceptNode at hok
  split at hok
  · exact absurd hok (by simp)
  · split at hok
    · omega
    · split at hok
      · rename_i hstack
        rw [Except.ok.injEq] at hok
        exact ⟨hok.symm, fun hne => absurd hstack hne⟩
      · rename_i hstack
        split at hok
        · exact absurd hok (by simp)
        · rename_i hjump
          rw [Except.ok.injEq] at hok
          refine ⟨hok.symm, fun _ => ?_⟩
          have hlen : 1 ≤ st.parentStack.length := by
            rw [hstack]; simp
          omega

/-- Description finalization preserves the parse invariant. -/
theorem inv_finalize (st : ParserState) (h : PInv st) : PInv (finalizePending st) := by
  unfold finalizePending
  split
  · split
    · exact h
    · exact InvC_fields st.nodes _ st.root st.parentStack st.idParts st.currentConcept
        (by simp) (nget_setDesc_fields st.nodes _ _) h
  · exact h

/-- Creating the root concept from a state with no concepts establishes
the parse invariant. -/
theorem inv_create_root (st : ParserState) (title : List Char) (md : List (List Char))
    (st2 : ParserState) (idx : Nat) (hInv : PInv st)
    (hcur : st.currentConcept = none)
    (hok : createConceptNode st 0 title md = .ok (st2, idx)) :
    PInv { st2 with currentConcept := some idx, pendingDesc := [] } := by
  obtain ⟨hnil, hroot⟩ := hInv.curNone hcur
  unfold createConceptNode at hok
  split at hok
  · exact absurd hok (by simp)
  · rw [if_pos rfl, hroot] at hok
    rw [Except.ok.injEq, Prod.mk.injEq] at hok
    obtain ⟨hst2, hidx⟩ := hok
    subst hst2
    subst hidx
    constructor
    · intro hcn
      exact absurd hcn (by simp)
    · intro r hr
      rw [Option.some.injEq] at hr
      rw [← hr, hnil]
      rfl
    · intro _
      rw [hnil]
      constructor
      · simp
      · rfl
      · simp
      · intro j hj
        simp at hj
        subst hj
        simp [nget]
      · intro j hj
        simp at hj
        subst hj
        rfl
      · intro i hi hi0
        simp at hi
        omega
      · intro i hi c hc
        simp at hi
        subst hi
        simp [nget] at hc
      · intro i hi
        simp at hi
        subst hi
        simp [nget]
      · intro i hi c hc
        simp at hi
        subst hi
        simp [nget] at hc
      · intro i p hi hp
        simp at hi
        subst hi
        simp [nget] at hp

end Tiki

namespace Tiki

/-- The last entry of a popped (truncated) stack. -/
theorem take_getLastD (s : List Nat) (k : Nat) (h1 : 1 ≤ k) (h2 : k ≤ s.length) :
    (s.take k).getLast? = some (s.getD (k - 1) 0) := by
  rw [List.getLast?_eq_getElem?]
  have hlen : (s.take k).length = k := by
    simp [List.length_take]
    omega
  rw [hlen, List.getElem?_take]
  have h3 : k - 1 < s.length := by omega
  rw [if_pos (by omega), List.getElem?_eq_getElem h3]
  have h4 : s.getD (k - 1) 0 = s[k - 1] := by
    rw [List.getD_eq_getElem?_getD, List.getElem?_eq_getElem h3]
    rfl
  rw [h4]

/-- Counters strictly below the incremented index are untouched. -/
theorem childParts_getD_lt (st : ParserState) (level i : Nat) (hi : i < level - 1) :
    (childParts st level).getD i 0 = st.idParts.getD i 0 := by
  unfold childParts
  rw [zeroFrom_getD_lt _ _ _ (by omega), setD_getD_ne _ _ _ _ (by omega)]

/-- Ids up to the parent level are unchanged by the counter update. -/
theorem childParts_buildId (st : ParserState) (level j : Nat) (hj : j ≤ level - 1) :
    buildId (childParts st level) j = buildId st.idParts j :=
  buildId_congr _ _ _ (fun i hi => childParts_getD_lt st level i (by omega))

/-- The non-root arm grows the arena by exactly one node. -/
theorem childArena_len (st : ParserState) (level : Nat) (title : List Char)
    (md : List (List Char)) :
    (childArena st level title md).length = st.nodes.length + 1 := by
  unfold childArena
  split <;> simp

/-- Arena shape when a parent exists. -/
theorem childArena_some (st : ParserState) (level : Nat) (title : List Char)
    (md : List (List Char)) (p : Nat)
    (hp : (st.parentStack.take level).getLast? = some p) :
    childArena st level title md =
      (st.nodes ++ [childNodeOf st level title md]).set p
        (addChild (nget (st.nodes ++ [childNodeOf st level title md]) p) st.nodes.length) := by
  unfold childArena
  rw [hp]
  rfl

/-- The new node sits at the old arena length. -/
theorem childArena_new (st : ParserState) (level : Nat) (title : List Char)
    (md : List (List Char)) (p : Nat)
    (hp : (st.parentStack.take level).getLast? = some p)
    (hpl : p < st.nodes.length) :
    nget (childArena st level title md) st.nodes.length = childNodeOf st level title md := by
  rw [childArena_some st level title md p hp]
  rw [nget_set_ne _ _ _ _ (by omega)]
  exact nget_append_self _ _

/-- The parent gains exactly the new index at the end of its child
list. -/
theorem childArena_parent (st : ParserState) (level : Nat) (title : List Char)
    (md : List (List Char)) (p : Nat)
    (hp : (st.parentStack.take level).getLast? = some p)
    (hpl : p < st.nodes.length) :
    nget (childArena st level title md) p = addChild (nget st.nodes p) st.nodes.length := by
  rw [childArena_some st level title md p hp]
  rw [nget_set_self _ _ _ (by simp; omega), nget_append_lt _ _ _ hpl]

/-- All other nodes are untouched. -/
theorem childArena_old (st : ParserState) (level : Nat) (title : List Char)
    (md : List (List Char)) (p q : Nat)
    (hp : (st.parentStack.take level).getLast? = some p)
    (hq : q < st.nodes.length) (hqp : q ≠ p) :
    nget (childArena st level title md) q = nget st.nodes q := by
  rw [childArena_some st level title md p hp]
  rw [nget_set_ne _ _ _ _ (fun h => hqp h.symm), nget_append_lt _ _ _ hq]

end Tiki

namespace Tiki

/-- Creating a node at a positive level preserves the parse invariant
(with the new node becoming the current concept). -/
theorem inv_create_pos (st : ParserState) (n : Nat) (title : List Char)
    (md : List (List Char)) (st2 : ParserState) (idx : Nat) (hInv : PInv st)
    (hok : createConceptNode st (n + 1) title md = .ok (st2, idx)) :
    PInv { st2 with currentConcept := some idx, pendingDesc := [] } := by
  obtain ⟨hpair, hjump⟩ :=
    createConceptNode_ok_facts st (n + 1) title md st2 idx (by omega) hok
  have hst2 : st2 = (createChildNode st (n + 1) title md).1 := congrArg Prod.fst hpair
  have hidx : idx = st.nodes.length := congrArg Prod.snd hpair
  subst hst2
  subst hidx
  show InvC (childArena st (n + 1) title md) st.root
    (st.parentStack.take (n + 1) ++ [st.nodes.length])
    (childParts st (n + 1)) (some st.nodes.length)
  cases hroot : st.root with
  | none =>
    constructor
    · intro hcn; exact absurd hcn (by simp)
    · intro r hr; exact absurd hr (by simp)
    · intro hr; exact absurd hr (by simp)
  | some r0 =>
    have hrs : st.root.isSome = true := by rw [hroot]; rfl
    have R := hInv.rooted hrs
    have hslen : 0 < st.parentStack.length := List.length_pos.mpr R.stackNe
    have hlev : n + 1 ≤ st.parentStack.length := hjump R.stackNe
    have hp : (st.parentStack.take (n + 1)).getLast? = some (st.parentStack.getD n 0) :=
      take_getLastD _ _ (by omega) hlev
    set p := st.parentStack.getD n 0 with hpdef
    have hnlt : n < st.parentStack.length := by omega
    have hpl : p < st.nodes.length := R.stackLt n hnlt
    have hpid : (nget st.nodes p).node_id = buildId st.idParts n := R.stackId n hnlt
    have hAlen := childArena_len st (n + 1) title md
    have hAnew := childArena_new st (n + 1) title md p hp hpl
    have hApar := childArena_parent st (n + 1) title md p hp hpl
    have hAold : ∀ q, q < st.nodes.length → q ≠ p →
        nget (childArena st (n + 1) title md) q = nget st.nodes q :=
      fun q hq hqp => childArena_old st (n + 1) title md p q hp hq hqp
    have hid : ∀ q, q < st.nodes.length →
        (nget (childArena st (n + 1) title md) q).node_id = (nget st.nodes q).node_id := by
      intro q hq
      by_cases hqp : q = p
      · subst hqp; rw [hApar]; rfl
      · rw [hAold q hq hqp]
    have hpar : ∀ q, q < st.nodes.length →
        (nget (childArena st (n + 1) title md) q).parentIdx = (nget st.nodes q).parentIdx := by
      intro q hq
      by_cases hqp : q = p
      · subst hqp; rw [hApar]; rfl
      · rw [hAold q hq hqp]
    have hchildOld : ∀ q, q < st.nodes.length → q ≠ p →
        (nget (childArena st (n + 1) title md) q).childIdxs = (nget st.nodes q).childIdxs := by
      intro q hq hqp; rw [hAold q hq hqp]
    have hchildP : (nget (childArena st (n + 1) title md) p).childIdxs =
        (nget st.nodes p).childIdxs ++ [st.nodes.length] := by
      rw [hApar]; rfl
    have hnewid : (nget (childArena st (n + 1) title md) st.nodes.length).node_id =
        buildId (childParts st (n + 1)) (n + 1) := by rw [hAnew]; rfl
    have hnewpar : (nget (childArena st (n + 1) title md) st.nodes.length).parentIdx = some p := by
      rw [hAnew]
      show (st.parentStack.take (n + 1)).getLast? = some p
      exact hp
    have hnewchild : (nget (childArena st (n + 1) title md) st.nodes.length).childIdxs = [] := by
      rw [hAnew]
      rfl
    have hpid2 : (nget st.nodes p).node_id = buildId (childParts st (n + 1)) n := by
      rw [hpid, ← childParts_buildId st (n + 1) n (by omega)]
    have hpruns : countStarRuns (nget st.nodes p).node_id = n := by
      rw [hpid]; exact countStarRuns_buildId _ _
    have htl : (st.parentStack.take (n + 1)).length = n + 1 := by
      simp [List.length_take]; omega
    constructor
    · intro hcn; exact absurd hcn (by simp)
    · intro r hr
      rw [Option.some.injEq] at hr
      subst hr
      exact hInv.rootZero r0 hroot
    · intro _
      constructor
      · omega
      · rw [hid 0 R.nodesNe]; exact R.rootId
      · simp
      · intro j hj
        rw [List.length_append, htl, List.length_singleton] at hj
        by_cases hjn : j < n + 1
        · rw [getD_append_lt _ _ _ _ (by rw [htl]; omega),
            getD_take_lt _ _ _ _ hjn]
          have := R.stackLt j (by omega)
          omega
        · have hj2 : j = n + 1 := by omega
          subst hj2
          have hsel := getD_append_self (st.parentStack.take (n + 1)) st.nodes.length 0
          rw [htl] at hsel
          rw [hsel]
          omega
      · intro j hj
        rw [List.length_append, htl, List.length_singleton] at hj
        by_cases hjn : j < n + 1
        · rw [getD_append_lt _ _ _ _ (by rw [htl]; omega),
            getD_take_lt _ _ _ _ hjn]
          rw [hid _ (R.stackLt j (by omega)), R.stackId j (by omega)]
          exact (childParts_buildId st (n + 1) j (by omega)).symm
        · have hj2 : j = n + 1 := by omega
          subst hj2
          have hsel := getD_append_self (st.parentStack.take (n + 1)) st.nodes.length 0
          rw [htl] at hsel
          rw [hsel]
          exact hnewid
      · intro i hi hi0
        rw [hAlen] at hi
        by_cases hile : i < st.nodes.length
        · obtain ⟨p', m, hlt, hpar', hid', hruns'⟩ := R.links i hile hi0
          have hp'lt : p' < st.nodes.length := by omega
          refine ⟨p', m, hlt, ?_, ?_, ?_⟩
          · rw [hpar i hile]; exact hpar'
          · rw [hid i hile, hid p' hp'lt]; exact hid'
          · rw [hid i hile, hid p' hp'lt]; exact hruns'
        · have hieq : i = st.nodes.length := by omega
          subst hieq
          refine ⟨p, (childParts st (n + 1)).getD n 0, hpl, hnewpar, ?_, ?_⟩
          · rw [hnewid, hid p hpl, hpruns, hpid2]
            exact buildId_succ _ n
          · rw [hnewid, hid p hpl, hpruns, countStarRuns_buildId]
      · intro i hi c hc
        rw [hAlen] at hi ⊢
        by_cases hinew : i = st.nodes.length
        · subst hinew
          rw [hnewchild] at hc
          exact absurd hc (List.not_mem_nil _)
        · have hile : i < st.nodes.length := by omega
          by_cases hip : i = p
          · subst hip
            rw [hchildP] at hc
            rcases List.mem_append.mp hc with hc1 | hc2
            · have := R.childLt p hpl c hc1
              omega
            · simp at hc2
              omega
          · rw [hchildOld i hile hip] at hc
            have := R.childLt i hile c hc
            omega
      · intro i hi
        rw [hAlen] at hi
        by_cases hinew : i = st.nodes.length
        · subst hinew
          rw [hnewchild]
          exact List.Pairwise.nil
        · have hile : i < st.nodes.length := by omega
          by_cases hip : i = p
          · subst hip
            rw [hchildP]
            exact pairwise_append_lt _ _ (R.childSorted p hpl)
              (fun c hc => R.childLt p hpl c hc)
          · rw [hchildOld i hile hip]
            exact R.childSorted i hile
      · intro i hi c hc
        rw [hAlen] at hi
        by_cases hinew : i = st.nodes.length
        · subst hinew
          rw [hnewchild] at hc
          exact absurd hc (List.not_mem_nil _)
        · have hile : i < st.nodes.length := by omega
          by_cases hip : i = p
          · subst hip
            rw [hchildP] at hc
            rcases List.mem_append.mp hc with hc1 | hc2
            · have hclt := R.childLt p hpl c hc1
              rw [hpar c hclt]
              exact R.childParent p hpl c hc1
            · simp at hc2
              subst hc2
              exact hnewpar
          · rw [hchildOld i hile hip] at hc
            have hclt := R.childLt i hile c hc
            rw [hpar c hclt]
            exact R.childParent i hile c hc
      · intro i p' hi hp'
        rw [hAlen] at hi
        by_cases hinew : i = st.nodes.length
        · subst hinew
          rw [hnewpar] at hp'
          rw [Option.some.injEq] at hp'
          subst hp'
          rw [hchildP]
          simp
        · have hile : i < st.nodes.length := by omega
          rw [hpar i hile] at hp'
          have hmem := R.parentChild i p' hile hp'
          have hp'len : p' < st.nodes.length := by
            by_contra hge
            rw [nget_oob _ _ (by omega)] at hmem
            have hd : (default : FlatNode).childIdxs = [] := rfl
            rw [hd] at hmem
            exact absurd hmem (List.not_mem_nil _)
          by_cases hp'p : p' = p
          · subst hp'p
            rw [hchildP]
            exact List.mem_append_left _ hmem
          · rw [hchildOld p' hp'len hp'p]
            exact hmem

end Tiki

namespace Tiki

/-- A marker token starting with an asterisk always computes a positive
level (the filtered pattern still starts with the asterisk). -/
theorem computeLevel_star_cons (t : List Char) :
    ∃ n, computeLevel ('*' :: t) = n + 1 := by
  unfold computeLevel
  rw [if_pos (by rfl)]
  rw [show ('*' :: t).filter (fun c => !(isAlnumCh c)) =
      '*' :: t.filter (fun c => !(isAlnumCh c)) from by
    rw [List.filter_cons_of_pos (by decide)]]
  unfold countStarRuns starRuns
  rw [if_pos rfl]
  refine ⟨starRuns (t.filter (fun c => !(isAlnumCh c))) true, ?_⟩
  simp only [Bool.false_eq_true, if_false]
  omega

/-- A line matching the concept pattern yields a marker token whose
computed level is positive; hence the level-0 root arm is unreachable
from the matched-line branch. -/
theorem matchConcept_level_pos (line tok rest : List Char)
    (h : matchConcept line = some (tok, rest)) :
    ∃ n, computeLevel tok = n + 1 := by
  unfold matchConcept at h
  cases hl : line with
  | nil => rw [hl] at h; exact absurd h (by simp)
  | cons a l' =>
    rw [hl] at h
    simp only [List.head?] at h
    split at h
    · rename_i hc
      subst hc
      split at h
      · exact absurd h (by simp)
      · rw [Option.some.injEq, Prod.mk.injEq] at h
        obtain ⟨htok, _⟩ := h
        rw [List.takeWhile_cons_of_pos (by decide)] at htok
        rw [← htok]
        exact computeLevel_star_cons _
    · exact absurd h (by simp)

/-- The non-delimiter part of the line processor preserves the parse
invariant. -/
theorem inv_processLineRest (st : ParserState) (line : List Char) (st' : ParserState)
    (h : PInv st) (hok : processLineRest st line = .ok st') : PInv st' := by
  unfold processLineRest at hok
  simp only [] at hok
  split at hok
  · rw [Except.ok.injEq] at hok; subst hok; exact h
  · split at hok
    · split at hok <;> split at hok <;>
        (rw [Except.ok.injEq] at hok; subst hok; exact h)
    · split at hok
      · split at hok
        · rw [Except.ok.injEq] at hok; subst hok; exact h
        · rw [Except.ok.injEq] at hok; subst hok; exact h
      · split at hok
        · rename_i tok titleRaw heq
          split at hok
          · exact absurd hok (by simp)
          · rename_i st2m idxm heq2
            rw [Except.ok.injEq] at hok
            subst hok
            obtain ⟨n, hn⟩ := matchConcept_level_pos line tok titleRaw heq
            rw [hn] at heq2
            exact inv_create_pos (finalizePending st) n _ _ _ _ (inv_finalize st h) heq2
        · split at hok
          · rename_i heqc
            split at hok
            · split at hok
              · exact absurd hok (by simp)
              · rename_i st2m idxm heq3
                rw [Except.ok.injEq] at hok
                subst hok
                exact inv_create_root st _ _ _ _ h heqc heq3
            · exact absurd hok (by simp)
          · rw [Except.ok.injEq] at hok; subst hok; exact h

/-- One full line step preserves the parse invariant. -/
theorem inv_processLine (st0 : ParserState) (raw : List Char) (st' : ParserState)
    (h : PInv st0) (hok : processLine st0 raw = .ok st') : PInv st' := by
  unfold processLine at hok
  simp only [] at hok
  have h1 : PInv { st0 with lineNumber := st0.lineNumber + 1 } := h
  split at hok
  · split at hok
    · rw [Except.ok.injEq] at hok; subst hok; exact h1
    · split at hok
      · rw [Except.ok.injEq] at hok; subst hok; exact h1
      · exact inv_processLineRest _ _ _ h1 hok
  · exact inv_processLineRest _ _ _ h1 hok

end Tiki

namespace Tiki

/-- The reset state satisfies the parse invariant. -/
theorem inv_init : PInv initState := by
  constructor
  · intro _; exact ⟨rfl, rfl⟩
  · intro r hr; exact absurd hr (by simp [initState])
  · intro hr; exact absurd hr (by simp [initState])

/-- The invariant is preserved by the whole line fold. -/
theorem inv_foldlM (lines : List (List Char)) (st0 st1 : ParserState)
    (h : PInv st0) (hok : lines.foldlM processLine st0 = .ok st1) : PInv st1 := by
  induction lines generalizing st0 with
  | nil =>
    simp only [List.foldlM_nil] at hok
    rw [show (pure st0 : Except TikiParseError ParserState) = .ok st0 from rfl,
      Except.ok.injEq] at hok
    subst hok
    exact h
  | cons l ls ih =>
    rw [List.foldlM_cons] at hok
    cases hpl : processLine st0 l with
    | error e =>
      rw [hpl] at hok
      exact absurd hok (by simp [Bind.bind, Except.bind])
    | ok s =>
      rw [hpl] at hok
      exact ih s (inv_processLine st0 l s h hpl) hok

/-- A successful parse ends in an invariant state whose root is node 0. -/
theorem inv_parseRun (lines : List (List Char)) (st : ParserState)
    (hok : tikiParseRun lines = .ok st) :
    PInv st ∧ st.root = some 0 := by
  unfold tikiParseRun at hok
  cases hf : lines.foldlM processLine initState with
  | error e => rw [hf] at hok; exact absurd hok (by simp)
  | ok stf =>
    rw [hf] at hok
    simp only [] at hok
    split at hok
    · exact absurd hok (by simp)
    · rename_i r hr
      rw [Except.ok.injEq] at hok
      subst hok
      have hInv : PInv (finalizePending stf) :=
        inv_finalize _ (inv_foldlM lines initState stf inv_init hf)
      refine ⟨hInv, ?_⟩
      rw [hr, hInv.rootZero r hr]

end Tiki

namespace Tiki

/-- Claim C10: in every tree returned by a successful parse, each
non-root node's id equals its parent's id extended by exactly one
additional asterisk run (of length one more than the parent's run
count) and a decimal counter — so its number of asterisk groups is its
parent's plus one — and each node's child sequence lists exactly its
children, ordered by document order of creation (strictly increasing
creation indices). -/
theorem c10_parse_tree_invariant (lines : List (List Char)) (st : ParserState)
    (hok : tikiParseRun lines = .ok st) :
    st.root = some 0 ∧
    (∀ i, i < st.nodes.length → i ≠ 0 →
      ∃ p m, p < i ∧ (nget st.nodes i).parentIdx = some p ∧
        (nget st.nodes i).node_id =
          (nget st.nodes p).node_id ++
            List.replicate (countStarRuns (nget st.nodes p).node_id + 1) '*' ++
            natChars m ∧
        countStarRuns (nget st.nodes i).node_id =
          countStarRuns (nget st.nodes p).node_id + 1) ∧
    (∀ i, i < st.nodes.length →
      List.Pairwise (fun a b => a < b) (nget st.nodes i).childIdxs ∧
      (∀ c ∈ (nget st.nodes i).childIdxs, (nget st.nodes c).parentIdx = some i)) ∧
    (∀ i p, i < st.nodes.length → (nget st.nodes i).parentIdx = some p →
      i ∈ (nget st.nodes p).childIdxs) := by
  obtain ⟨hInv, hroot⟩ := inv_parseRun lines st hok
  have R := hInv.rooted (by rw [hroot]; rfl)
  exact ⟨hroot, R.links, fun i hi => ⟨R.childSorted i hi, R.childParent i hi⟩,
    R.parentChild⟩

/-- Witness for C10: the invariant discharged on the concrete parse of
`Root` / `*1 A`, exhibiting the parent link and id extension of node 1. -/
theorem c10_parse_tree_invariant_witness :
    tikiParseRun c10SampleLines = .ok c10SampleState ∧
    c10SampleState.root = some 0 ∧
    (∃ p m, p < 1 ∧ (nget c10SampleState.nodes 1).parentIdx = some p ∧
      (nget c10SampleState.nodes 1).node_id =
        (nget c10SampleState.nodes p).node_id ++
          List.replicate (countStarRuns (nget c10SampleState.nodes p).node_id + 1) '*' ++
          natChars m ∧
      countStarRuns (nget c10SampleState.nodes 1).node_id =
        countStarRuns (nget c10SampleState.nodes p).node_id + 1) := by
  have hok : tikiParseRun c10SampleLines = .ok c10SampleState := by rfl
  have hmain := c10_parse_tree_invariant c10SampleLines c10SampleState hok
  exact ⟨hok, hmain.1, hmain.2.1 1 (by decide) (by decide)⟩

end Tiki
